import Mathlib

/-!
Shallow embedding of the `anchortest` crate's syscall-stub subsystem
(`src/stub/mod.rs`) and of the SPL token-account helpers
(`src/spl/mod.rs`), together with theorems settling the specification
claims about them.

Conventions of the embedding:
* machine integers are `Nat` (for `u64`) and `Int` (for `i64` / `i128`),
  with explicit `% 2 ^ 64` where the Rust code's casts truncate;
* the `Arc<Mutex<_>>` cells of `Syscalls` are modelled in two ways:
  a value-level model (`Syscalls` below), adequate for single-handle
  sequential claims, and a heap-with-references model (`Heap`,
  `SyscallsHandle`) for the claim about `Clone` sharing state;
* a Rust `panic!` / failed assertion is modelled as `Option.none`;
* raw-pointer output buffers (`*mut u8`) are modelled as byte lists
  (`List Nat`) standing for the memory region the pointer addresses.
-/

/-- Embeds `solana_program::clock::Clock` (the fields the stub copies
byte-for-byte): `slot: u64`, `epoch_start_timestamp: i64`, `epoch: u64`,
`leader_schedule_epoch: u64`, `unix_timestamp: i64`. -/
structure Clock where
  slot : Nat
  epoch_start_timestamp : Int
  epoch : Nat
  leader_schedule_epoch : Nat
  unix_timestamp : Int
deriving DecidableEq, Repr

/-- Embeds `Clock::default()`: every field zero. -/
def Clock.default : Clock :=
  { slot := 0, epoch_start_timestamp := 0, epoch := 0
    leader_schedule_epoch := 0, unix_timestamp := 0 }

/-- Little-endian bytes of a `u64` value (8 bytes). -/
def u64le (n : Nat) : List Nat :=
  (List.range 8).map fun i => n / 256 ^ i % 256

/-- Little-endian two's-complement bytes of an `i64` value (8 bytes). -/
def i64le (v : Int) : List Nat :=
  u64le ((v % ((2 : Int) ^ 64)).toNat)

/-- Embeds `mem::size_of::<Clock>()` = 5 fields × 8 bytes. -/
def size_of_clock : Nat := 40

/-- In-memory bytes of a `Clock` value, fields in declaration order,
each 8 bytes little-endian — the layout the stub's raw
`slice::from_raw_parts` copy of the struct reads. -/
def clockBytes (c : Clock) : List Nat :=
  u64le c.slot ++ i64le c.epoch_start_timestamp ++ u64le c.epoch
    ++ u64le c.leader_schedule_epoch ++ i64le c.unix_timestamp

/-- Embeds `<[u8]>::copy_from_slice`: copies `src` over `dst` when the
lengths agree, and panics (here: `none`) when they differ. -/
def copy_from_slice (dst src : List Nat) : Option (List Nat) :=
  if dst.length = src.length then some src else none

/-- Embeds `anchor` `Instruction` at the granularity the stub uses: a
target program id (pubkeys as `Nat`), account metas, and payload bytes. -/
structure Instruction where
  program_id : Nat
  accounts : List (Nat × Bool × Bool)
  data : List Nat
deriving DecidableEq, Repr

/-- Embeds the `AccountInfo` fields visible to a CPI validator. -/
structure AccountInfo where
  key : Nat
  is_signer : Bool
  is_writable : Bool
  lamports : Nat
  data : List Nat
  owner : Nat
  executable : Bool
  rent_epoch : Nat
deriving DecidableEq, Repr

/-- Embeds `solana_program::entrypoint::ProgramResult`
(`Result<(), ProgramError>`); error payloads are abstracted to `Nat`. -/
inductive ProgramResult where
  | ok : ProgramResult
  | err : Nat → ProgramResult
deriving DecidableEq, Repr

/-- Embeds the `ValidateCpis` trait: the single operation
`validate_next_instruction(&mut self, ix, accounts)`, state-passing.
`none` models the validator rejecting the call by panicking (a fatal
abort); `some` carries the validator's updated state. -/
structure ValidateCpis (T : Type) where
  validate_next_instruction : T → Instruction → List AccountInfo → Option T
deriving Inhabited

variable {T : Type}

/-- Embeds `stub::Syscalls<T>`: the contents of its three `Arc<Mutexms>`
cells, value-level (one handle, sequential use). -/
structure Syscalls (T : Type) where
  cpi_validator : T
  clock : Clock
  logs : List String
deriving DecidableEq, Repr

/-- Embeds `Syscalls::new`: wraps the validator, `Default::default()`
logs (empty) and clock (all zero). -/
def Syscalls.new (cpi_validator : T) : Syscalls T :=
  { cpi_validator := cpi_validator, clock := Clock.default, logs := [] }

/-- Embeds `Syscalls::logs`: clones the captured log vector. -/
def Syscalls.getLogs (s : Syscalls T) : List String := s.logs

/-- Embeds `Syscalls::slot`: mutates only the `slot` field of the
stored clock. -/
def Syscalls.setSlot (s : Syscalls T) (slot : Nat) : Syscalls T :=
  { s with clock := { s.clock with slot := slot } }

/-- Embeds `Syscalls::clock`: overwrites the stored clock wholesale. -/
def Syscalls.setClock (s : Syscalls T) (clock : Clock) : Syscalls T :=
  { s with clock := clock }

/-- Embeds the `sol_log` hook: pushes the message onto the shared log
vector (the `println!` side effect has no observable state here). -/
def sol_log (s : Syscalls T) (message : String) : Syscalls T :=
  { s with logs := s.logs ++ [message] }

/-- Embeds the `sol_get_clock_sysvar` hook. `var_addr` is the byte
region the caller's raw pointer addresses; `from_raw_parts_mut(var_addr,
size_of_clock)` is its first `size_of_clock` bytes, over which the
clock's bytes are copied; the returned `Nat` is the status code.
`none` models the panic of `copy_from_slice` on a length mismatch
(the region is too small to supply the struct-sized view). -/
def sol_get_clock_sysvar (s : Syscalls T) (var_addr : List Nat) :
    Option (List Nat × Nat) :=
  let var := var_addr.take size_of_clock
  let clock_bytes := clockBytes s.clock
  match copy_from_slice var clock_bytes with
  | none => none
  | some written => some (written ++ var_addr.drop size_of_clock, 0)

/-- Embeds the `sol_get_epoch_schedule_sysvar` hook: returns 0 and
leaves the caller's buffer untouched. -/
def sol_get_epoch_schedule_sysvar (_s : Syscalls T)
    (var_addr : List Nat) : List Nat × Nat :=
  (var_addr, 0)

/-- Embeds the `sol_get_fees_sysvar` hook: returns 0, buffer untouched. -/
def sol_get_fees_sysvar (_s : Syscalls T) (var_addr : List Nat) :
    List Nat × Nat :=
  (var_addr, 0)

/-- Embeds the `sol_get_rent_sysvar` hook: returns 0, buffer untouched. -/
def sol_get_rent_sysvar (_s : Syscalls T) (var_addr : List Nat) :
    List Nat × Nat :=
  (var_addr, 0)

/-- Embeds the `sol_invoke_signed` hook: locks the validator cell,
delivers `(instruction, account_infos)` to its single operation once,
and returns `Ok(())`. A validator panic (`none`) aborts the call with
no result; the seeds are accepted and ignored. -/
def sol_invoke_signed (V : ValidateCpis T) (s : Syscalls T)
    (instruction : Instruction) (account_infos : List AccountInfo)
    (_signers_seeds : List (List (List Nat))) :
    Option (Syscalls T × ProgramResult) :=
  match V.validate_next_instruction s.cpi_validator instruction
    account_infos with
  | none => none
  | some v' => some ({ s with cpi_validator := v' }, ProgramResult.ok)

/-- Helper: `u64le` always yields 8 bytes. -/
theorem u64le_length (n : Nat) : (u64le n).length = 8 := by
  simp [u64le]

/-- Helper: the clock's byte image always has the struct's size. -/
theorem clockBytes_length (c : Clock) :
    (clockBytes c).length = size_of_clock := by
  simp [clockBytes, i64le, u64le_length, size_of_clock]

/-- Helper: closed form of the clock-sysvar read — it succeeds exactly
when the addressed region holds at least `size_of_clock` bytes, writing
the clock's bytes over the first `size_of_clock` of them and returning
status 0. -/
theorem sol_get_clock_sysvar_spec (s : Syscalls T) (var_addr : List Nat) :
    sol_get_clock_sysvar s var_addr =
      if size_of_clock ≤ var_addr.length then
        some (clockBytes s.clock ++ var_addr.drop size_of_clock, 0)
      else none := by
  unfold sol_get_clock_sysvar copy_from_slice
  have hlen : (var_addr.take size_of_clock).length =
      min size_of_clock var_addr.length := List.length_take _ _
  by_cases h : size_of_clock ≤ var_addr.length
  · rw [if_pos h]
    have : (var_addr.take size_of_clock).length = (clockBytes s.clock).length := by
      rw [hlen, clockBytes_length, Nat.min_eq_left h]
    simp [this]
  · rw [if_neg h]
    have hne : ¬ (size_of_clock ⊓ var_addr.length = (clockBytes s.clock).length) := by
      rw [clockBytes_length]
      omega
    simp [hlen, hne]

/-- One clock mutation a test may perform through the `Syscalls`
handle: a wholesale overwrite (`Syscalls::clock`) or a slot-only update
(`Syscalls::slot`). -/
inductive ClockUpdate where
  | whole : Clock → ClockUpdate
  | slotOnly : Nat → ClockUpdate
deriving DecidableEq, Repr

/-- Applies one clock mutation through the handle. -/
def applyUpdate (s : Syscalls T) : ClockUpdate → Syscalls T
  | ClockUpdate.whole c => s.setClock c
  | ClockUpdate.slotOnly n => s.setSlot n

/-- Applies a sequence of clock mutations in order. -/
def applyUpdates (s : Syscalls T) (us : List ClockUpdate) : Syscalls T :=
  us.foldl applyUpdate s

/-- Spec-side description of "the most recently set clock value" after
a sequence of updates: an overwrite installs its clock, a slot-only
update changes just the slot field of the current value. -/
def mostRecentClock (c : Clock) (us : List ClockUpdate) : Clock :=
  us.foldl (fun c u =>
    match u with
    | ClockUpdate.whole c' => c'
    | ClockUpdate.slotOnly n => { c with slot := n }) c

/-- Heap model for the `Clone` claim: the allocations behind the three
`Arc<Mutex<_>>` cells, as stores indexed by allocation index. -/
structure Heap (T : Type) where
  validatorCells : List T
  clockCells : List Clock
  logCells : List (List String)
deriving DecidableEq, Repr

/-- A `Syscalls` handle in the heap model: the `Arc` pointers, i.e.
the indices of the three allocations the handle refers to. -/
structure SyscallsHandle where
  cpi_validator : Nat
  clock : Nat
  logs : Nat
deriving DecidableEq, Repr

/-- Embeds `#[derive(Clone)] struct Syscalls`: cloning clones each
`Arc`, which copies the pointer to the same allocation — the clone is
the same triple of references. -/
def SyscallsHandle.clone (h : SyscallsHandle) : SyscallsHandle := h

/-- Reads the clock allocation a handle refers to. -/
def Heap.clockAt (H : Heap T) (r : Nat) : Clock :=
  H.clockCells.getD r Clock.default

/-- Reads the log allocation a handle refers to. -/
def Heap.logsAt (H : Heap T) (r : Nat) : List String :=
  H.logCells.getD r []

/-- Reads the validator allocation a handle refers to. -/
def Heap.validatorAt (H : Heap T) (r : Nat) : Option T :=
  H.validatorCells.get? r

/-- Embeds `Syscalls::clock` in the heap model: overwrites the clock
allocation the handle points to. -/
def handleSetClock (H : Heap T) (h : SyscallsHandle) (c : Clock) :
    Heap T :=
  { H with clockCells := H.clockCells.set h.clock c }

/-- Embeds `Syscalls::slot` in the heap model: updates the slot field
of the clock allocation the handle points to. -/
def handleSetSlot (H : Heap T) (h : SyscallsHandle) (n : Nat) :
    Heap T :=
  let old := H.clockCells.getD h.clock Clock.default
  { H with clockCells := H.clockCells.set h.clock { old with slot := n } }

/-- Embeds the `sol_log` hook in the heap model: pushes onto the log
allocation the handle points to. -/
def handleLog (H : Heap T) (h : SyscallsHandle) (m : String) : Heap T :=
  { H with logCells :=
      H.logCells.set h.logs (H.logCells.getD h.logs [] ++ [m]) }

/-- Writes the validator allocation a handle refers to (a test mutating
validator state through `Syscalls::validator`'s shared `Arc`). -/
def handleSetValidator (H : Heap T) (h : SyscallsHandle) (v : T) :
    Heap T :=
  { H with validatorCells := H.validatorCells.set h.cpi_validator v }

/-- Helper: reading an index just written by `List.set` yields the
written value when the index is in bounds. -/
theorem getD_set_self (l : List α) (r : Nat) (a d : α)
    (h : r < l.length) : (l.set r a).getD r d = a := by
  induction l generalizing r with
  | nil => simp at h
  | cons x xs ih =>
    cases r with
    | zero => simp [List.set, List.getD]
    | succ r =>
      simp only [List.set, List.length_cons] at h ⊢
      simpa [List.getD] using ih r (by omega)

/-- Embeds `spl_token::state::AccountState`; constructor names are
abbreviations of `Uninitialized`, `Initialized`, `Frozen`. -/
inductive AccountState where
  | uninit : AccountState
  | inited : AccountState
  | frozen : AccountState
deriving DecidableEq, Repr

/-- Embeds `spl_token::state::Account` (a token account), pubkeys as
`Nat`, `COption` as `Option`. The account's serialized `data` buffer is
represented by this struct value itself: `unpack_from_slice` followed by
`pack_into_slice` round-trips, so a function that unpacks, mutates and
packs is the corresponding function on the struct, and a run that never
packs leaves the represented data untouched. -/
structure TokenAccount where
  mint : Nat
  owner : Nat
  amount : Nat
  delegate : Option Nat
  state : AccountState
  is_native : Option Nat
  delegated_amount : Nat
  close_authority : Option Nat
deriving DecidableEq, Repr

/-- Embeds `u64::checked_add`. -/
def checked_add (a b : Nat) : Option Nat :=
  if a + b < 2 ^ 64 then some (a + b) else none

/-- Embeds `u64::checked_sub`. -/
def checked_sub (a b : Nat) : Option Nat :=
  if b ≤ a then some (a - b) else none

/-- Embeds `token_account::change_amount(info, amount)`, state-passing
over the account data: returns the previous amount on success; on a
`checked_add`/`checked_sub` failure the `?` operator returns `None`
before `pack_into_slice` runs, so the account data is the unchanged
input. The Rust `amount as u64` and `amount.abs() as u64` casts of the
`i128` argument truncate, hence the `% 2 ^ 64`. -/
def change_amount (acc : TokenAccount) (amount : Int) :
    Option Nat × TokenAccount :=
  let current_amount := acc.amount
  if 0 ≤ amount then
    match checked_add acc.amount (amount.toNat % 2 ^ 64) with
    | none => (none, acc)
    | some a => (some current_amount, { acc with amount := a })
  else
    match checked_sub acc.amount (amount.natAbs % 2 ^ 64) with
    | none => (none, acc)
    | some a => (some current_amount, { acc with amount := a })

/-- Embeds `token_account::transfer(from, into, amount)`: debits the
source by `amount`, then credits the destination, propagating the first
`None` and leaving later steps unrun. -/
def transfer (from_ into : TokenAccount) (amount : Nat) :
    Option Unit × TokenAccount × TokenAccount :=
  match change_amount from_ (-(amount : Int)) with
  | (none, from_') => (none, from_', into)
  | (some _, from_') =>
    match change_amount into (amount : Int) with
    | (none, into') => (none, from_', into')
    | (some _, into') => (some (), from_', into')

/-- Helper: folding the log hook over a message list appends exactly
those messages, in order, to the existing log. -/
theorem logs_foldl_sol_log (s : Syscalls T) (msgs : List String) :
    (msgs.foldl sol_log s).logs = s.logs ++ msgs := by
  induction msgs generalizing s with
  | nil => simp [List.foldl]
  | cons m ms ih =>
    simp only [List.foldl]
    rw [ih (sol_log s m)]
    simp [sol_log]

/-- C3: for every sequence of N log emissions through the log hook, a
subsequent log retrieval returns the prior log extended by exactly
those N messages in emission order — no loss, duplication, or
reordering; from a fresh instance the retrieval is exactly the emitted
sequence. -/
theorem sol_log_emission_order (s : Syscalls T) (msgs : List String)
    (v : T) :
    (msgs.foldl sol_log s).getLogs = s.getLogs ++ msgs
    ∧ (msgs.foldl sol_log (Syscalls.new v)).getLogs = msgs := by
  refine ⟨logs_foldl_sol_log s msgs, ?_⟩
  show (msgs.foldl sol_log (Syscalls.new v)).logs = msgs
  rw [logs_foldl_sol_log]
  simp [Syscalls.new]

/-- C4: the slot-only update sets the clock's slot field to the given
value and leaves every other clock field unchanged, for every prior
state. -/
theorem setSlot_frame (s : Syscalls T) (n : Nat) :
    (s.setSlot n).clock.slot = n
    ∧ (s.setSlot n).clock.epoch = s.clock.epoch
    ∧ (s.setSlot n).clock.epoch_start_timestamp
        = s.clock.epoch_start_timestamp
    ∧ (s.setSlot n).clock.leader_schedule_epoch
        = s.clock.leader_schedule_epoch
    ∧ (s.setSlot n).clock.unix_timestamp = s.clock.unix_timestamp :=
  ⟨rfl, rfl, rfl, rfl, rfl⟩

/-- C5: the epoch-schedule, fees, and rent sysvar hooks always return
the success status code 0 and never write the caller's buffer, so a
caller who supplied a zeroed buffer observes zeroed (default) data
afterwards. -/
theorem default_sysvar_hooks (s : Syscalls T) (var_addr : List Nat)
    (n : Nat) :
    sol_get_epoch_schedule_sysvar s var_addr = (var_addr, 0)
    ∧ sol_get_fees_sysvar s var_addr = (var_addr, 0)
    ∧ sol_get_rent_sysvar s var_addr = (var_addr, 0)
    ∧ (sol_get_epoch_schedule_sysvar s (List.replicate n 0)).1
        = List.replicate n 0
    ∧ (sol_get_fees_sysvar s (List.replicate n 0)).1 = List.replicate n 0
    ∧ (sol_get_rent_sysvar s (List.replicate n 0)).1 = List.replicate n 0 :=
  ⟨rfl, rfl, rfl, rfl, rfl, rfl⟩

/-- Helper: the clock stored after a sequence of updates is the
spec-side "most recently set" clock. -/
theorem applyUpdates_clock (s : Syscalls T) (us : List ClockUpdate) :
    (applyUpdates s us).clock = mostRecentClock s.clock us := by
  induction us generalizing s with
  | nil => rfl
  | cons u us ih =>
    cases u with
    | whole c =>
      simp only [applyUpdates, mostRecentClock, List.foldl]
      exact ih (s.setClock c)
    | slotOnly n =>
      simp only [applyUpdates, mostRecentClock, List.foldl]
      exact ih (s.setSlot n)

/-- C2: after any sequence of clock mutations (wholesale overwrites
and/or slot-only updates), the stored clock is exactly the most
recently set value field-for-field, and a clock-sysvar read into a
struct-sized buffer copies exactly that clock's bytes and returns the
success status code 0. -/
theorem clock_read_returns_most_recent (s : Syscalls T)
    (us : List ClockUpdate) (var_addr : List Nat)
    (h : var_addr.length = size_of_clock) :
    (applyUpdates s us).clock = mostRecentClock s.clock us
    ∧ sol_get_clock_sysvar (applyUpdates s us) var_addr
        = some (clockBytes (mostRecentClock s.clock us), 0) := by
  refine ⟨applyUpdates_clock s us, ?_⟩
  rw [sol_get_clock_sysvar_spec, if_pos (le_of_eq h.symm)]
  rw [List.drop_eq_nil_of_le (le_of_eq h)]
  rw [List.append_nil, applyUpdates_clock]

/-- Concrete mutation sequence used by the C2 witness. -/
def usW : List ClockUpdate :=
  [ClockUpdate.whole
      { slot := 1, epoch_start_timestamp := 2, epoch := 3
        leader_schedule_epoch := 4, unix_timestamp := 5 },
    ClockUpdate.slotOnly 7]

/-- Witness for C2 at a concrete state, update sequence and buffer. -/
theorem clock_read_returns_most_recent_witness :
    (applyUpdates (Syscalls.new ()) usW).clock
        = mostRecentClock (Syscalls.new ()).clock usW
    ∧ sol_get_clock_sysvar (applyUpdates (Syscalls.new ()) usW)
        (List.replicate 40 0)
        = some (clockBytes (mostRecentClock (Syscalls.new ()).clock usW), 0) :=
  clock_read_returns_most_recent (Syscalls.new ()) usW
    (List.replicate 40 0) (by decide)

/-- C6 (amended): the clock-sysvar read performs no check that the
caller's region size equals the struct size — it writes the clock's
canonical fixed-layout bytes (which always number exactly
`size_of_clock`) over the first `size_of_clock` bytes of the region
whenever the region holds at least that many bytes, returning status 0;
only a region too small to supply the struct-sized view fails the
internal length assertion. -/
theorem clock_read_write_behavior (s : Syscalls T)
    (var_addr : List Nat) :
    (clockBytes s.clock).length = size_of_clock
    ∧ sol_get_clock_sysvar s var_addr =
        if size_of_clock ≤ var_addr.length then
          some (clockBytes s.clock ++ var_addr.drop size_of_clock, 0)
        else none :=
  ⟨clockBytes_length s.clock, sol_get_clock_sysvar_spec s var_addr⟩

/-- Counterexample to C6 as stated: a 48-byte region, whose size
differs from the clock structure's 40 bytes, is nevertheless written —
the read succeeds with status 0 and the clock bytes in place instead of
failing an assertion. -/
theorem clock_read_no_size_assert :
    (List.replicate 48 (0 : Nat)).length ≠ size_of_clock
    ∧ sol_get_clock_sysvar (Syscalls.new ()) (List.replicate 48 (0 : Nat))
        = some (clockBytes Clock.default ++ List.replicate 8 0, 0) := by
  constructor
  · decide
  · decide

/-- C10: a freshly constructed override layer has an empty log and the
all-zero default clock, and a clock-sysvar read before any mutation
yields all-zero bytes with status 0. -/
theorem new_initial_state (v : T) (var_addr : List Nat)
    (h : var_addr.length = size_of_clock) :
    (Syscalls.new v).getLogs = []
    ∧ (Syscalls.new v).clock = Clock.default
    ∧ Clock.default.slot = 0
    ∧ Clock.default.epoch = 0
    ∧ Clock.default.epoch_start_timestamp = 0
    ∧ Clock.default.leader_schedule_epoch = 0
    ∧ Clock.default.unix_timestamp = 0
    ∧ sol_get_clock_sysvar (Syscalls.new v) var_addr
        = some (List.replicate size_of_clock 0, 0) := by
  refine ⟨rfl, rfl, rfl, rfl, rfl, rfl, rfl, ?_⟩
  rw [sol_get_clock_sysvar_spec, if_pos (le_of_eq h.symm)]
  rw [List.drop_eq_nil_of_le (le_of_eq h), List.append_nil]
  show some (clockBytes Clock.default, 0) = _
  decide

/-- Witness for C10 at a concrete validator value and buffer. -/
theorem new_initial_state_witness :
    (Syscalls.new (0 : Nat)).getLogs = []
    ∧ (Syscalls.new (0 : Nat)).clock = Clock.default
    ∧ Clock.default.slot = 0
    ∧ Clock.default.epoch = 0
    ∧ Clock.default.epoch_start_timestamp = 0
    ∧ Clock.default.leader_schedule_epoch = 0
    ∧ Clock.default.unix_timestamp = 0
    ∧ sol_get_clock_sysvar (Syscalls.new (0 : Nat)) (List.replicate 40 0)
        = some (List.replicate size_of_clock 0, 0) :=
  new_initial_state 0 (List.replicate 40 0) (by decide)

/-- C1: the invoke-signed hook aborts (fatally, as a panic) exactly
when the validator's single operation rejects the delivered record, and
whenever it does return to the caller's control flow the result is
`Ok(())` — never an error value; on return the validator state has
advanced by exactly one application of its operation to the supplied
instruction and accounts (the record was delivered exactly once), and
the clock and log state are untouched. -/
theorem invoke_signed_behavior (V : ValidateCpis T) (s : Syscalls T)
    (ix : Instruction) (accs : List AccountInfo)
    (seeds : List (List (List Nat))) :
    (sol_invoke_signed V s ix accs seeds).isSome
      = (V.validate_next_instruction s.cpi_validator ix accs).isSome
    ∧ ∀ s' r, sol_invoke_signed V s ix accs seeds = some (s', r) →
        r = ProgramResult.ok
        ∧ some s'.cpi_validator
            = V.validate_next_instruction s.cpi_validator ix accs
        ∧ s'.clock = s.clock ∧ s'.logs = s.logs := by
  unfold sol_invoke_signed
  cases hV : V.validate_next_instruction s.cpi_validator ix accs with
  | none => simp
  | some v' =>
    refine ⟨rfl, ?_⟩
    intro s' r hsr
    simp only [Option.some.injEq, Prod.mk.injEq] at hsr
    obtain ⟨hs', hr⟩ := hsr
    subst hs'
    exact ⟨hr.symm, rfl, rfl, rfl⟩

/-- Concrete counting validator used by the C1 witness. -/
def countingV : ValidateCpis Nat :=
  { validate_next_instruction := fun st _ _ => some (st + 1) }

/-- Concrete instruction used by the C1 witness. -/
def ixW : Instruction := { program_id := 9, accounts := [], data := [1, 2] }

/-- Witness for C1 at a concrete validator, state and instruction. -/
theorem invoke_signed_behavior_witness :
    (sol_invoke_signed countingV (Syscalls.new 0) ixW [] []).isSome
      = (countingV.validate_next_instruction
          (Syscalls.new 0).cpi_validator ixW []).isSome
    ∧ ∀ s' r, sol_invoke_signed countingV (Syscalls.new 0) ixW [] []
          = some (s', r) →
        r = ProgramResult.ok
        ∧ some s'.cpi_validator
            = countingV.validate_next_instruction
                (Syscalls.new 0).cpi_validator ixW []
        ∧ s'.clock = (Syscalls.new 0).clock
        ∧ s'.logs = (Syscalls.new 0).logs :=
  invoke_signed_behavior countingV (Syscalls.new 0) ixW [] []

/-- Helper: reading an index just written by `List.set` with `get?`
yields the written value when the index is in bounds. -/
theorem get_set_self (l : List α) (r : Nat) (a : α)
    (h : r < l.length) : (l.set r a).get? r = some a := by
  induction l generalizing r with
  | nil => simp at h
  | cons x xs ih =>
    cases r with
    | zero => rfl
    | succ r =>
      simp only [List.length_cons] at h
      simpa [List.set] using ih r (by omega)

/-- C7: a clone of an override-layer handle is the very same triple of
references to the validator, clock, and log allocations — any function
of the handle treats clone and original identically — so a mutation of
the clock, log, or validator state performed through the clone is
visible to a subsequent read through the original handle (and vice
versa): shared-state semantics, never a snapshot. -/
theorem clone_shares_state (H : Heap T) (h : SyscallsHandle)
    (c : Clock) (n : Nat) (m : String) (v : T)
    (hc : h.clock < H.clockCells.length)
    (hl : h.logs < H.logCells.length)
    (hv : h.cpi_validator < H.validatorCells.length) :
    SyscallsHandle.clone h = h
    ∧ (∀ f : SyscallsHandle → Heap T, f (SyscallsHandle.clone h) = f h)
    ∧ (handleSetClock H (SyscallsHandle.clone h) c).clockAt h.clock = c
    ∧ (handleSetSlot H (SyscallsHandle.clone h) n).clockAt h.clock
        = { H.clockAt h.clock with slot := n }
    ∧ (handleLog H (SyscallsHandle.clone h) m).logsAt h.logs
        = H.logsAt h.logs ++ [m]
    ∧ (handleSetValidator H (SyscallsHandle.clone h) v).validatorAt
        h.cpi_validator = some v
    ∧ (handleSetClock H h c).clockAt (SyscallsHandle.clone h).clock = c := by
  refine ⟨rfl, fun f => rfl, ?_, ?_, ?_, ?_, ?_⟩
  · exact getD_set_self _ _ _ _ hc
  · exact getD_set_self _ _ _ _ hc
  · exact getD_set_self _ _ _ _ hl
  · exact get_set_self _ _ _ hv
  · exact getD_set_self _ _ _ _ hc

/-- Concrete heap used by the C7 witness: one allocation per cell. -/
def heapW : Heap Nat :=
  { validatorCells := [0], clockCells := [Clock.default], logCells := [[]] }

/-- Concrete handle used by the C7 witness. -/
def handleW : SyscallsHandle := { cpi_validator := 0, clock := 0, logs := 0 }

/-- Concrete clock used by the C7 witness. -/
def clockW : Clock :=
  { slot := 11, epoch_start_timestamp := 12, epoch := 13
    leader_schedule_epoch := 14, unix_timestamp := 15 }

/-- Witness for C7 at a concrete heap, handle and mutations. -/
theorem clone_shares_state_witness :
    SyscallsHandle.clone handleW = handleW
    ∧ (∀ f : SyscallsHandle → Heap Nat,
        f (SyscallsHandle.clone handleW) = f handleW)
    ∧ (handleSetClock heapW (SyscallsHandle.clone handleW) clockW).clockAt
        handleW.clock = clockW
    ∧ (handleSetSlot heapW (SyscallsHandle.clone handleW) 9).clockAt
        handleW.clock = { heapW.clockAt handleW.clock with slot := 9 }
    ∧ (handleLog heapW (SyscallsHandle.clone handleW) "hi").logsAt
        handleW.logs = heapW.logsAt handleW.logs ++ ["hi"]
    ∧ (handleSetValidator heapW (SyscallsHandle.clone handleW) 5).validatorAt
        handleW.cpi_validator = some 5
    ∧ (handleSetClock heapW handleW clockW).clockAt
        (SyscallsHandle.clone handleW).clock = clockW :=
  clone_shares_state heapW handleW clockW 9 "hi" 5
    (by decide) (by decide) (by decide)

/-- C8: for every token account and signed delta whose magnitude fits
in `u64`, `change_amount` returns the previous amount exactly when
applying the delta neither underflows below 0 nor overflows `u64`;
whenever it returns `None` the account data is completely unchanged (no
partial write), and any non-`None` result is precisely the previous
amount. -/
theorem change_amount_spec (acc : TokenAccount) (amount : Int)
    (hacc : acc.amount < 2 ^ 64) (hmag : amount.natAbs < 2 ^ 64) :
    ((change_amount acc amount).1 = some acc.amount ↔
      0 ≤ (acc.amount : Int) + amount
        ∧ (acc.amount : Int) + amount < 2 ^ 64)
    ∧ ((change_amount acc amount).1 = none →
        (change_amount acc amount).2 = acc)
    ∧ ((change_amount acc amount).1 ≠ none →
        (change_amount acc amount).1 = some acc.amount) := by
  unfold change_amount checked_add checked_sub
  by_cases h0 : 0 ≤ amount
  · have htn : amount.toNat % 2 ^ 64 = amount.toNat := by
      apply Nat.mod_eq_of_lt
      omega
    rw [if_pos h0, htn]
    by_cases hov : acc.amount + amount.toNat < 2 ^ 64
    · rw [if_pos hov]
      refine ⟨?_, ?_, ?_⟩
      · simp only [Option.some.injEq, true_iff, iff_true]
        omega
      · intro hnone
        simp at hnone
      · intro _
        rfl
    · rw [if_neg hov]
      refine ⟨?_, ?_, ?_⟩
      · simp only [iff_iff_implies_and_implies]
        constructor
        · intro hsome
          simp at hsome
        · intro hrange
          omega
      · intro _
        rfl
      · intro hne
        simp at hne
  · have hneg : amount < 0 := by omega
    have htn : amount.natAbs % 2 ^ 64 = amount.natAbs :=
      Nat.mod_eq_of_lt hmag
    rw [if_neg h0, htn]
    by_cases hun : amount.natAbs ≤ acc.amount
    · rw [if_pos hun]
      refine ⟨?_, ?_, ?_⟩
      · simp only [Option.some.injEq, true_iff, iff_true]
        omega
      · intro hnone
        simp at hnone
      · intro _
        rfl
    · rw [if_neg hun]
      refine ⟨?_, ?_, ?_⟩
      · simp only [iff_iff_implies_and_implies]
        constructor
        · intro hsome
          simp at hsome
        · intro hrange
          omega
      · intro _
        rfl
      · intro hne
        simp at hne

/-- Concrete token account used by the C8 witness. -/
def accW : TokenAccount :=
  { mint := 1, owner := 2, amount := 5, delegate := none
    state := AccountState.inited, is_native := none
    delegated_amount := 0, close_authority := none }

/-- Witness for C8 at a concrete account and delta. -/
theorem change_amount_spec_witness :
    (((change_amount accW (-3)).1 = some accW.amount ↔
      0 ≤ (accW.amount : Int) + (-3)
        ∧ (accW.amount : Int) + (-3) < 2 ^ 64)
    ∧ ((change_amount accW (-3)).1 = none →
        (change_amount accW (-3)).2 = accW)
    ∧ ((change_amount accW (-3)).1 ≠ none →
        (change_amount accW (-3)).1 = some accW.amount)) :=
  change_amount_spec accW (-3) (by decide) (by decide)

/-- Helper: `change_amount` at a nonnegative `u64`-sized credit. -/
theorem change_amount_pos_nat (acc : TokenAccount) (amount : Nat)
    (ha : amount < 2 ^ 64) :
    change_amount acc (amount : Int) =
      if acc.amount + amount < 2 ^ 64 then
        (some acc.amount, { acc with amount := acc.amount + amount })
      else (none, acc) := by
  unfold change_amount checked_add
  rw [if_pos (by positivity : (0 : Int) ≤ (amount : Int))]
  have htn : (amount : Int).toNat % 2 ^ 64 = amount := by
    rw [Int.toNat_natCast]
    exact Nat.mod_eq_of_lt ha
  rw [htn]
  by_cases hov : acc.amount + amount < 2 ^ 64
  · rw [if_pos hov, if_pos hov]
  · rw [if_neg hov, if_neg hov]

/-- Helper: `change_amount` at a `u64`-sized debit (negated amount),
assuming the account amount is a valid `u64`. At `amount = 0` the Rust
code takes the addition branch, which under the validity bound also
succeeds and leaves the amount unchanged. -/
theorem change_amount_neg_nat (acc : TokenAccount) (amount : Nat)
    (ha : amount < 2 ^ 64) (hacc : acc.amount < 2 ^ 64) :
    change_amount acc (-(amount : Int)) =
      if amount ≤ acc.amount then
        (some acc.amount, { acc with amount := acc.amount - amount })
      else (none, acc) := by
  unfold change_amount checked_add checked_sub
  by_cases hz : amount = 0
  · subst hz
    rw [if_pos (by simp : (0 : Int) ≤ -((0 : Nat) : Int))]
    simp only [Int.toNat_zero, Nat.zero_mod, Nat.cast_zero, neg_zero,
      Int.toNat_zero]
    rw [if_pos (by omega : acc.amount + 0 < 2 ^ 64)]
    rw [if_pos (Nat.zero_le _)]
    simp
  · have hneg : ¬ (0 : Int) ≤ -(amount : Int) := by
      simp only [neg_nonneg]
      omega
    rw [if_neg hneg]
    have habs : (-(amount : Int)).natAbs % 2 ^ 64 = amount := by
      simp only [Int.natAbs_neg, Int.natAbs_ofNat]
      exact Nat.mod_eq_of_lt ha
    rw [habs]
    by_cases hun : amount ≤ acc.amount
    · rw [if_pos hun, if_pos hun]
    · rw [if_neg hun, if_neg hun]

/-- C9: `transfer` succeeds exactly when the source holds at least
`amount` and the destination's amount plus `amount` fits in `u64`; on
insufficient source balance neither account is modified; when the
debit succeeds but the credit overflows, the result is `None` with the
source already debited and not rolled back (no atomic rollback); on
success the source is debited and the destination credited. -/
theorem transfer_spec (from_ into : TokenAccount) (amount : Nat)
    (hf : from_.amount < 2 ^ 64) (hi : into.amount < 2 ^ 64)
    (ha : amount < 2 ^ 64) :
    ((transfer from_ into amount).1 = some () ↔
      amount ≤ from_.amount ∧ into.amount + amount < 2 ^ 64)
    ∧ (from_.amount < amount →
        transfer from_ into amount = (none, from_, into))
    ∧ (amount ≤ from_.amount → 2 ^ 64 ≤ into.amount + amount →
        transfer from_ into amount
          = (none, { from_ with amount := from_.amount - amount }, into))
    ∧ (amount ≤ from_.amount → into.amount + amount < 2 ^ 64 →
        transfer from_ into amount
          = (some (), { from_ with amount := from_.amount - amount },
              { into with amount := into.amount + amount })) := by
  unfold transfer
  rw [change_amount_neg_nat from_ amount ha hf]
  by_cases hun : amount ≤ from_.amount
  · rw [if_pos hun]
    simp only []
    rw [change_amount_pos_nat into amount ha]
    by_cases hov : into.amount + amount < 2 ^ 64
    · rw [if_pos hov]
      refine ⟨?_, ?_, ?_, ?_⟩
      · simp only [true_iff, iff_true]
        exact ⟨hun, hov⟩
      · intro hlt
        omega
      · intro _ hge
        omega
      · intro _ _
        rfl
    · rw [if_neg hov]
      refine ⟨?_, ?_, ?_, ?_⟩
      · simp only [iff_iff_implies_and_implies]
        constructor
        · intro hsome
          simp at hsome
        · intro hr
          exact absurd hr.2 hov
      · intro hlt
        omega
      · intro _ _
        rfl
      · intro _ hov'
        exact absurd hov' hov
  · rw [if_neg hun]
    refine ⟨?_, ?_, ?_, ?_⟩
    · simp only [iff_iff_implies_and_implies]
      constructor
      · intro hsome
        simp at hsome
      · intro hr
        exact absurd hr.1 hun
    · intro _
      rfl
    · intro hle _
      exact absurd hle hun
    · intro hle _
      exact absurd hle hun

/-- Concrete destination account used by the C9 witness. -/
def intoW : TokenAccount :=
  { mint := 1, owner := 3, amount := 2, delegate := none
    state := AccountState.inited, is_native := none
    delegated_amount := 0, close_authority := none }

/-- Witness for C9 at concrete accounts and amount. -/
theorem transfer_spec_witness :
    (((transfer accW intoW 4).1 = some () ↔
      4 ≤ accW.amount ∧ intoW.amount + 4 < 2 ^ 64)
    ∧ (accW.amount < 4 → transfer accW intoW 4 = (none, accW, intoW))
    ∧ (4 ≤ accW.amount → 2 ^ 64 ≤ intoW.amount + 4 →
        transfer accW intoW 4
          = (none, { accW with amount := accW.amount - 4 }, intoW))
    ∧ (4 ≤ accW.amount → intoW.amount + 4 < 2 ^ 64 →
        transfer accW intoW 4
          = (some (), { accW with amount := accW.amount - 4 },
              { intoW with amount := intoW.amount + 4 }))) :=
  transfer_spec accW intoW 4 (by decide) (by decide) (by decide)
